import Mathlib

/-!
# Verification of the pgexport/pgxport export engine

Shallow embedding of the export/serialization core of the `pgexport` /
`pgxport` repository (Go), together with proofs about the properties stated
in its specification.  Go strings and byte slices are modelled as `List Char`;
Go `interface{}` values delivered by the row cursor are modelled by the tagged
variant type `PgValue`; external library calls (`time.LoadLocation`,
`time.Time.Format`, Go `encoding/json` map encoding) are modelled by explicit
parameters or documented definitions.
-/

namespace Pgexport

/-! ## Characters that are awkward as literals -/

/-- The single-quote character (codepoint 39). -/
def squote : Char := Char.ofNat 39

/-- The double-quote character (codepoint 34). -/
def dquote : Char := Char.ofNat 34

/-- The backslash character (codepoint 92). -/
def bslash : Char := Char.ofNat 92

/-- The horizontal-tab character (codepoint 9). -/
def tabChar : Char := Char.ofNat 9

/-- The newline character (codepoint 10). -/
def nlChar : Char := Char.ofNat 10

/-- The space character (codepoint 32). -/
def spChar : Char := Char.ofNat 32

/-- The opening curly brace (codepoint 123). -/
def obrace : Char := Char.ofNat 123

/-- The closing curly brace (codepoint 125). -/
def cbrace : Char := Char.ofNat 125

/-! ## Small list/string utilities mirroring the Go standard library -/

/-- Decidable test that `p` is a prefix of `s` (Go `strings.HasPrefix`). -/
def listIsPre (p s : List Char) : Bool :=
  match p, s with
  | [], _ => true
  | _ :: _, [] => false
  | a :: p, b :: s => a = b && listIsPre p s

/-- Whitespace set of Go `unicode.IsSpace` (the White_Space property). -/
def goIsSpace (c : Char) : Bool :=
  c.val = 9 || c.val = 10 || c.val = 11 || c.val = 12 || c.val = 13 ||
  c.val = 32 || c.val = 0x85 || c.val = 0xA0 || c.val = 0x1680 ||
  (0x2000 ≤ c.val && c.val ≤ 0x200A) || c.val = 0x2028 || c.val = 0x2029 ||
  c.val = 0x202F || c.val = 0x205F || c.val = 0x3000

/-- Go `strings.TrimSpace`: drop leading and trailing whitespace. -/
def trimSpace (s : List Char) : List Char :=
  ((s.dropWhile goIsSpace).reverse.dropWhile goIsSpace).reverse

/-- Go `strings.Join` / separator-joining of string lists. -/
def joinSep (sep : List Char) (parts : List (List Char)) : List Char :=
  List.intercalate sep parts

/-! ## The tagged value type delivered by the row cursor

A `time.Time` value is modelled by its observable behaviour only: `fmtAt none
layout` models `t.Format(layout)` and `fmtAt (some loc) layout` models
`t.In(loc).Format(layout)`. -/

/-- Model of a Go `*time.Location`: either the process-local zone or a named
zone obtained from `time.LoadLocation`. -/
inductive GoLoc where
  | localLoc : GoLoc
  | zone (name : List Char) : GoLoc
deriving DecidableEq

/-- Model of a Go `time.Time` value via its formatting behaviour. -/
structure GoTime where
  fmtAt : Option GoLoc → List Char → List Char

/-- Tagged model of the `interface{}` values produced by `pgx.Rows.Values`,
as dispatched by the type switches in `core/formatters/formatting.go`.
`intervalV` models `pgtype.Interval`: the `Valid` flag plus the result of
`Value()` (`Except.error ()` when the conversion fails, `Except.ok s` when it
yields the textual form `s`).  `numericV` similarly models `pgtype.Numeric`
with the `%.15g`-rendered result of `Float64Value`. -/
inductive PgValue where
  | null
  | boolV (b : Bool)
  | intV (n : Int)
  | floatV (rendered : List Char)
  | textV (s : List Char)
  | bytesV (s : List Char)
  | uuidV (hex : List Char)
  | timeV (t : GoTime)
  | numericV (valid : Bool) (conv : Except Unit (List Char))
  | intervalV (valid : Bool) (conv : Except Unit (List Char))
  | arrV (elems : List (List Char))
  | jsonV (compact : List Char)

/-! ## Quote escaping (Go `strings.ReplaceAll(str, squote, squote-squote)`) -/

/-- Character-level model of `strings.ReplaceAll(str, "<squote>",
"<squote><squote>")`: every single-quote character is doubled.  Faithful to the
Go call because the pattern is a single character. -/
def doubleQuotes : List Char → List Char
  | [] => []
  | c :: rest =>
    if c = squote then squote :: squote :: doubleQuotes rest
    else c :: doubleQuotes rest

/-- Inverse reading of the doubling rule: each doubled single quote is read
back as one single quote. -/
def undoubleQuotes : List Char → List Char
  | [] => []
  | [c] => [c]
  | c :: d :: rest =>
    if c = squote ∧ d = squote then squote :: undoubleQuotes rest
    else c :: undoubleQuotes (d :: rest)

/-! ## The SQL statement value formatter

`FormatSQLValue` from `core/formatters/formatting.go` (the type-switch
variant, dispatching on the value's runtime type). -/

/-- Model of `FormatSQLValue(v interface{}) string` from
`core/formatters/formatting.go`.  Branches appear in the order of the Go type
switch; a Go string carries no dedicated case and falls to the `default`
branch (`fmt.Sprintf("%v", val)` of a string is the string itself). -/
def FormatSQLValue (v : PgValue) : List Char :=
  match v with
  | .null => "NULL".data
  | .uuidV hex => squote :: hex ++ [squote] ++ "::uuid".data
  | .bytesV s => squote :: doubleQuotes s ++ [squote]
  | .timeV t => squote :: t.fmtAt none "2006-01-02T15:04:05.000".data ++ [squote]
  | .boolV b => if b then "true".data else "false".data
  | .intervalV valid conv =>
    if !valid then []
    else
      match conv with
      | .error _ => []
      | .ok s => squote :: s ++ [squote] ++ "::interval".data
  | .intV n => (toString n).data
  | .floatV r => r
  | .numericV valid conv =>
    if !valid then "NULL".data
    else
      match conv with
      | .error _ => "NULL".data
      | .ok r => r
  | .arrV elems =>
    if elems = [] then [obrace, cbrace]
    else squote :: obrace :: joinSep [','] elems ++ [cbrace, squote]
  | .jsonV compact => squote :: compact ++ [squote] ++ "::jsonb".data
  | .textV s => squote :: doubleQuotes s ++ [squote]

/-! ## Identifier quoting and the batch INSERT builder
(`core/exporters/sql_exporter.go` and `core/formatters/formatting.go`) -/

/-- Character-level model of `strings.ReplaceAll(part, dquote,
dquote-dquote)` used by `QuoteIdent`: every double-quote character is
doubled. -/
def doubleDQuotes : List Char → List Char
  | [] => []
  | c :: rest =>
    if c = dquote then dquote :: dquote :: doubleDQuotes rest
    else c :: doubleDQuotes rest

/-- Model of `QuoteIdent` from `core/formatters/formatting.go`: split the
name on the dot, wrap each part in double quotes doubling embedded double
quotes, and re-join with dots. -/
def QuoteIdent (s : List Char) : List Char :=
  joinSep ['.'] ((s.splitOn '.').map (fun part => dquote :: doubleDQuotes part ++ [dquote]))

/-- Value lines of a batch INSERT statement: one tab-indented parenthesised
tuple per row, comma-separated, with the last tuple followed by the statement
terminator, each line newline-terminated (`writeBatchInsert`, loop body). -/
def valuesLines : List (List (List Char)) → List Char
  | [] => []
  | [r] => tabChar :: '(' :: joinSep ", ".data r ++ [')', ';', nlChar]
  | r :: rs => tabChar :: '(' :: joinSep ", ".data r ++ [')', ',', nlChar] ++ valuesLines rs

/-- Model of `writeBatchInsert` from `core/exporters/sql_exporter.go`: an
empty batch writes nothing; otherwise one INSERT header followed by the value
lines.  `columns` arrive already quoted, as in `sqlExporter.Export`. -/
def writeBatchInsert (table : List Char) (columns : List (List Char))
    (rows : List (List (List Char))) : List Char :=
  if rows = [] then []
  else
    "INSERT INTO ".data ++ QuoteIdent table ++ " (".data ++
      joinSep ", ".data columns ++ ") VALUES".data ++ [nlChar] ++ valuesLines rows

/-- Row-buffering loop of `sqlExporter.Export`: each formatted record is
appended to the batch buffer; when the buffer reaches `RowPerStatement` rows
it is flushed as one batch and cleared; a final non-empty buffer is flushed
after the loop.  The result is the sequence of batches passed to
`writeBatchInsert`, in emission order. -/
def sqlBatchLoop (B : Nat) : List α → List α → List (List α)
  | [], buf => if buf.length = 0 then [] else [buf]
  | r :: rs, buf =>
    if (buf ++ [r]).length = B then (buf ++ [r]) :: sqlBatchLoop B rs []
    else sqlBatchLoop B rs (buf ++ [r])

/-- Batches emitted by `sqlExporter.Export` for a delivered row sequence. -/
def sqlExportBatches (B : Nat) (rows : List α) : List (List α) :=
  sqlBatchLoop B rows []

/-- INSERT statements emitted by `sqlExporter.Export`, in emission order. -/
def sqlExportStatements (table : List Char) (columns : List (List Char))
    (B : Nat) (rows : List (List (List Char))) : List (List Char) :=
  (sqlExportBatches B rows).map (writeBatchInsert table columns)

/-! ## JSON values and the per-format value formatters
(`core/formatters/formatting.go`) -/

/-- Model of the `interface{}` results handed to the JSON/YAML encoders:
either a native null/boolean, a number (carried in its rendered decimal
form), a string, or a pass-through value marshalled from its compact JSON
form. -/
inductive JsonVal where
  | jnull
  | jbool (b : Bool)
  | jnum (rendered : List Char)
  | jstr (s : List Char)
  | jraw (compact : List Char)
deriving DecidableEq

/-- String escaping shared by the Go `%q` verb and `encoding/json` string
encoding for the characters exercised here: backslash and double quote are
backslash-escaped, tab and newline become their two-character escapes. -/
def strEscape : List Char → List Char
  | [] => []
  | c :: rest =>
    if c = dquote then bslash :: dquote :: strEscape rest
    else if c = bslash then bslash :: bslash :: strEscape rest
    else if c = nlChar then bslash :: 'n' :: strEscape rest
    else if c = tabChar then bslash :: 't' :: strEscape rest
    else c :: strEscape rest

/-- Quoted string form produced by `fmt.Sprintf` with the `%q` verb and by
the JSON string encoder. -/
def goQuoteStr (s : List Char) : List Char :=
  dquote :: strEscape s ++ [dquote]

/-- JSON serialization of a `JsonVal` (model of `json.Encoder.Encode` with
HTML escaping disabled, restricted to a single value). -/
def marshalJson : JsonVal → List Char
  | .jnull => "null".data
  | .jbool b => if b then "true".data else "false".data
  | .jnum r => r
  | .jstr s => goQuoteStr s
  | .jraw compact => compact

/-- Model of `FormatJSONValue` from `core/formatters/formatting.go`: a nil
value stays nil (encoded as the native `null` token), times are formatted in
the configured zone, UUID/bytes become strings, invalid numerics and
intervals become nil, everything else passes through to the encoder. -/
def FormatJSONValue (v : PgValue) (layout : List Char) (loc : GoLoc) : JsonVal :=
  match v with
  | .null => .jnull
  | .timeV t => .jstr (t.fmtAt (some loc) layout)
  | .uuidV hex => .jstr hex
  | .bytesV s => .jstr s
  | .numericV valid conv =>
    if !valid then .jnull
    else
      match conv with
      | .error _ => .jnull
      | .ok r => .jnum r
  | .intervalV valid conv =>
    if !valid then .jnull
    else
      match conv with
      | .error _ => .jnull
      | .ok s => .jstr s
  | .boolV b => .jbool b
  | .intV n => .jnum (toString n).data
  | .floatV r => .jnum r
  | .textV s => .jstr s
  | .arrV elems => .jraw (obrace :: joinSep [','] elems ++ [cbrace])
  | .jsonV compact => .jraw compact

/-- Model of `FormatCSVValue` from `core/formatters/formatting.go`: a nil
value renders as the empty field; times are formatted in the configured
zone; invalid numerics and intervals render empty; arrays render
brace-delimited; JSON objects render as their compact marshalled text;
remaining values render via `%v`. -/
def FormatCSVValue (v : PgValue) (layout : List Char) (loc : GoLoc) : List Char :=
  match v with
  | .null => []
  | .timeV t => t.fmtAt (some loc) layout
  | .uuidV hex => hex
  | .bytesV s => s
  | .numericV valid conv =>
    if !valid then []
    else
      match conv with
      | .error _ => []
      | .ok r => r
  | .floatV r => r
  | .intervalV valid conv =>
    if !valid then []
    else
      match conv with
      | .error _ => []
      | .ok s => s
  | .arrV elems =>
    if elems = [] then [obrace, cbrace]
    else obrace :: joinSep [','] elems ++ [cbrace]
  | .jsonV compact => compact
  | .boolV b => if b then "true".data else "false".data
  | .intV n => (toString n).data
  | .textV s => s

/-- Model of `FormatXMLValue` from `core/formatters/formatting.go`; the
branch structure coincides with the CSV formatter except that a failed JSON
marshal renders empty, which the model does not need to distinguish. -/
def FormatXMLValue (v : PgValue) (layout : List Char) (loc : GoLoc) : List Char :=
  FormatCSVValue v layout loc

/-! ## The markup (XML) writers

The streaming XML writers emit `xml.Encoder` tokens; outputs are modelled as
token lists plus a rendering function.  Indentation added by
`encoder.Indent` is not modelled; element order and content are. -/

/-- Model of a Go `encoding/xml` token as used by the exporters: start tag,
end tag, escaped character data (`EncodeElement`), or a raw string written
directly to the underlying writer. -/
inductive XmlToken where
  | startTag (name : List Char)
  | endTag (name : List Char)
  | textData (s : List Char)
  | rawData (s : List Char)
deriving DecidableEq

/-- Decidable substring test (Go `strings.Contains`). -/
def containsSub (s pat : List Char) : Bool :=
  (List.range (s.length + 1)).any (fun i => listIsPre pat (s.drop i))

/-- JSON-likeness test of `xmlExporter.Export`: the value starts with an
opening brace or bracket or contains a double quote followed by a colon. -/
def isJSONLike (val : List Char) : Bool :=
  listIsPre [obrace] val || listIsPre ['['] val || containsSub val [dquote, ':']

/-- Per-field token emission of `xmlExporter.Export` (the ordered writer): an
empty formatted value becomes an empty element (open plus close tag, no
content); a JSON-like value is written raw between the tags; anything else is
encoded as an escaped element. -/
def xmlFieldTokens (field val : List Char) : List XmlToken :=
  if val = [] then [.startTag field, .endTag field]
  else if isJSONLike val then [.startTag field, .rawData val, .endTag field]
  else [.startTag field, .textData val, .endTag field]

/-- Per-row token emission of `xmlExporter.Export`: a row start tag, the
field tokens in the order of the column slice, and the row end tag. -/
def xmlRowTokens (rowTag : List Char) (fields vals : List (List Char)) : List XmlToken :=
  .startTag rowTag ::
    ((List.zip fields vals).map (fun fv => xmlFieldTokens fv.1 fv.2)).flatten
    ++ [.endTag rowTag]

/-- Character-data escaping of `xml.EscapeText` for the five reserved
characters. -/
def xmlEscape : List Char → List Char
  | [] => []
  | c :: rest =>
    if c = '&' then '&' :: "amp;".data ++ xmlEscape rest
    else if c = '<' then '&' :: "lt;".data ++ xmlEscape rest
    else if c = '>' then '&' :: "gt;".data ++ xmlEscape rest
    else if c = squote then '&' :: "apos;".data ++ xmlEscape rest
    else if c = dquote then '&' :: "quot;".data ++ xmlEscape rest
    else c :: xmlEscape rest

/-- Byte rendering of one XML token. -/
def renderToken : XmlToken → List Char
  | .startTag n => '<' :: n ++ ['>']
  | .endTag n => '<' :: '/' :: n ++ ['>']
  | .textData s => xmlEscape s
  | .rawData s => s

/-- Byte rendering of a token sequence. -/
def renderTokens (ts : List XmlToken) : List Char :=
  (ts.map renderToken).flatten

/-- Model of the legacy `XMLRow.MarshalXML` from
`src/exporters/xml_exporter.go`: it ranges over the Go map `r.Fields`, so
the argument lists the key-value pairs in whatever iteration order the Go
runtime delivers (Go deliberately randomizes map iteration order); each pair
is encoded as an escaped element inside the fixed `row` element. -/
def XMLRowMarshal (fieldsInIterOrder : List (List Char × List Char)) : List Char :=
  renderTokens
    (.startTag "row".data ::
      (fieldsInIterOrder.map
        (fun kv => [XmlToken.startTag kv.1, .textData kv.2, .endTag kv.1])).flatten
      ++ [.endTag "row".data])

/-- Names of the start tags of a token sequence, in emission order. -/
def startNames : List XmlToken → List (List Char)
  | [] => []
  | .startTag n :: rest => n :: startNames rest
  | _ :: rest => startNames rest

/-! ## The ordered JSON row encoder (`OrderedJsonEncoder.EncodeRow`) -/

/-- Entry loop of `OrderedJsonEncoder.EncodeRow`: before every entry except
the first a comma-newline separator is written, then four spaces of
indentation, the `%q`-quoted key, a colon-space, and the marshalled value. -/
def encodeEntries : Bool → List (List Char × JsonVal) → List Char
  | _, [] => []
  | first, (k, v) :: rest =>
    (if first then [] else [',', nlChar]) ++
      [spChar, spChar, spChar, spChar] ++ goQuoteStr k ++ ':' :: [spChar] ++
      marshalJson v ++ encodeEntries false rest

/-- Model of `OrderedJsonEncoder.EncodeRow` from the `encoders` package: an
empty key list yields the empty object; otherwise an opening brace and
newline, the entries walked in key order, and the closing newline-indent-
brace. -/
def EncodeRow (keys : List (List Char)) (values : List JsonVal) : List Char :=
  if keys = [] then [obrace, cbrace]
  else
    obrace :: nlChar :: encodeEntries true (List.zip keys values) ++
      nlChar :: spChar :: spChar :: [cbrace]

/-- Rendered text of one key-value entry (spec side): indentation, quoted
key, colon-space, marshalled value. -/
def entryStr (kv : List Char × JsonVal) : List Char :=
  [spChar, spChar, spChar, spChar] ++ goQuoteStr kv.1 ++ ':' :: [spChar] ++
    marshalJson kv.2

/-- Spec-side separated join of the entries, written from the spec's words:
the entries appear in exactly the given (column) order, separated by
comma-newline. -/
def orderedEntriesSpec : List (List Char × JsonVal) → List Char
  | [] => []
  | [kv] => entryStr kv
  | kv :: rest => entryStr kv ++ ',' :: [nlChar] ++ orderedEntriesSpec rest

/-- Spec-side row object: brace-newline, the ordered entries, newline-indent-
brace. -/
def orderedRowSpec (keys : List (List Char)) (values : List JsonVal) : List Char :=
  obrace :: nlChar :: orderedEntriesSpec (List.zip keys values) ++
    nlChar :: spChar :: spChar :: [cbrace]

/-! ## The legacy map-based JSON writer (`dataExporter.writeJSON`) -/

/-- Lexicographic byte-order comparison of Go strings (`a <= b`). -/
def goStrLe : List Char → List Char → Bool
  | [], _ => true
  | _ :: _, [] => false
  | c :: a, d :: b => if c.val = d.val then goStrLe a b else decide (c.val < d.val)

/-- Insertion into a sorted string list. -/
def insertSorted (x : List Char) : List (List Char) → List (List Char)
  | [] => [x]
  | y :: ys => if goStrLe x y then x :: y :: ys else y :: insertSorted x ys

/-- Insertion sort of a string list in ascending byte order. -/
def goSortStrings : List (List Char) → List (List Char)
  | [] => []
  | x :: xs => insertSorted x (goSortStrings xs)

/-- Key order emitted by the legacy `dataExporter.writeJSON` from
`src/exporters/json_exporter.go`: the row is converted to a Go
`map[string]interface{}` and encoded with `encoding/json`, which by its
documented contract emits map keys in sorted order; the emitted key order is
therefore the sorted column list, not the column order. -/
def legacyWriteJSONKeyOrder (columns : List (List Char)) : List (List Char) :=
  goSortStrings columns

/-! ## The user time-format replacer (`strings.NewReplacer`) -/

/-- Pattern-replacement pairs of `timeFormatReplacer`, in argument order. -/
def replacerPairs : List (List Char × List Char) :=
  [("yyyy".data, "2006".data), ("yy".data, "06".data), ("MM".data, "01".data),
   ("dd".data, "02".data), ("HH".data, "15".data), ("mm".data, "04".data),
   ("ss".data, "05".data), ("SSS".data, "000".data), ("S".data, "0".data)]

/-- First pair whose pattern is a prefix of `s`, in argument order. -/
def findPair (s : List Char) : List (List Char × List Char) → Option (List Char × List Char)
  | [] => none
  | p :: ps => if listIsPre p.1 s then some p else findPair s ps

/-- Fuelled left-to-right replacement scan of `strings.Replacer.Replace`: at
each position the first matching pattern (in argument order) is replaced and
the scan resumes after it; otherwise one character is copied.  One unit of
fuel per input character suffices since every step consumes at least one
character. -/
def runReplacer : Nat → List Char → List Char
  | 0, _ => []
  | _, [] => []
  | fuel + 1, c :: rest =>
    match findPair (c :: rest) replacerPairs with
    | some p => p.2 ++ runReplacer fuel ((c :: rest).drop p.1.length)
    | none => c :: runReplacer fuel rest

/-- Model of `ConvertUserTimeFormat`: apply `timeFormatReplacer` to the
user-facing pattern, producing a Go time layout. -/
def ConvertUserTimeFormat (userTimefmt : List Char) : List Char :=
  runReplacer userTimefmt.length userTimefmt

/-! ## Timezone resolution (`UserTimeZoneFormat`, `ValidateTimeZone`)

`time.LoadLocation` is an external library call; it is modelled by an
explicit resolver argument `resolve` mapping a zone name to `some` location
or `none` when the name cannot be resolved. -/

/-- Result of `UserTimeZoneFormat`: the converted layout, the chosen
location, and whether the invalid-timezone warning (`log.Printf` in the
error branch) was recorded. -/
structure TZFormatResult where
  layout : List Char
  loc : GoLoc
  warned : Bool
deriving DecidableEq

/-- Model of `UserTimeZoneFormat` from `core/formatters/formatting.go`: an
empty zone name means local time; an unresolvable name logs a warning and
falls back to local time; otherwise the resolved location is used. -/
def UserTimeZoneFormat (resolve : List Char → Option GoLoc)
    (userTimefmt timeZone : List Char) : TZFormatResult :=
  let layout := ConvertUserTimeFormat userTimefmt
  if timeZone = [] then ⟨layout, .localLoc, false⟩
  else
    match resolve timeZone with
    | none => ⟨layout, .localLoc, true⟩
    | some loc => ⟨layout, loc, false⟩

/-- Model of `ValidateTimeZone`: the empty name is valid (local time); any
other name must resolve. -/
def ValidateTimeZone (resolve : List Char → Option GoLoc)
    (timezone : List Char) : Except (List Char) Unit :=
  if timezone = [] then .ok ()
  else
    match resolve timezone with
    | none => .error ("invalid timezone".data)
    | some _ => .ok ()

/-! ## CLI parameter validation (`validateExportParams` in `main.go`) -/

/-- Go `strings.ToLower` over the model alphabet. -/
def goToLower (s : List Char) : List Char :=
  s.map Char.toLower

/-- The flag values consulted by `validateExportParams`.  The time-format
check delegates to the Go time library round trip and is modelled by the
oracle `timeFmtOk`. -/
structure ExportParams where
  sqlQuery : List Char
  sqlFile : List Char
  format : List Char
  compression : List Char
  tableName : List Char
  rowPerStatement : Int
  timeFormat : List Char
  timeZone : List Char

/-- Model of `validateExportParams` from `main.go`, with the checks in
source order: query source, format, compression, SQL table name and batch
size, time format (oracle `timeFmtOk` models `ValidateTimeFormat`), and
finally the timezone, whose failure is a validation error that aborts the
run before any export begins. -/
def validateExportParams (resolve : List Char → Option GoLoc)
    (timeFmtOk : List Char → Bool) (p : ExportParams) : Except (List Char) Unit :=
  if p.sqlQuery = [] ∧ p.sqlFile = [] then
    .error "either sql or sqlfile must be provided".data
  else if p.sqlQuery ≠ [] ∧ p.sqlFile ≠ [] then
    .error "cannot use both sql and sqlfile".data
  else
    let format := goToLower (trimSpace p.format)
    if ¬ (format = "csv".data ∨ format = "json".data ∨ format = "xml".data ∨
          format = "sql".data) then
      .error "invalid format".data
    else
      let compression0 := goToLower (trimSpace p.compression)
      let compression := if compression0 = [] then "none".data else compression0
      if ¬ (compression = "none".data ∨ compression = "gzip".data ∨
            compression = "zip".data) then
        .error "invalid compression".data
      else if format = "sql".data ∧ trimSpace p.tableName = [] then
        .error "table is required when using SQL format".data
      else if format = "sql".data ∧ p.rowPerStatement < 1 then
        .error "insert-batch must be at least 1".data
      else if p.timeFormat ≠ [] ∧ ¬ timeFmtOk p.timeFormat then
        .error "invalid time format".data
      else if p.timeZone ≠ [] ∧ (ValidateTimeZone resolve p.timeZone).isOk = false then
        .error "invalid timezone".data
      else
        .ok ()

/-! ## Delimiter parsing (`parseDelimiter` in `main.go`) -/

/-- Model of `parseDelimiter`: trim whitespace; reject the empty string; map
the two-character escape token backslash-t to the tab rune; reject anything
that is not exactly one rune; otherwise return that rune. -/
def parseDelimiter (delim : List Char) : Except (List Char) Char :=
  let d := trimSpace delim
  if d = [] then .error "delimiter cannot be empty".data
  else if d = [bslash, 't'] then .ok tabChar
  else
    match d with
    | [c] => .ok c
    | _ => .error "delimiter must be a single character".data

/-! ## Date-portion extraction (`extractUserDateFormat`) -/

/-- Go `strings.LastIndex`: start index of the last occurrence of `pat` in
`s`, or `none` (Go: -1) when absent. -/
def lastIndexOfSub (s pat : List Char) : Option Nat :=
  ((List.range (s.length + 1)).filter (fun i => listIsPre pat (s.drop i))).getLast?

/-- The date tokens recognised by `extractUserDateFormat`, in source order. -/
def dateTokens : List (List Char) :=
  ["yyyy".data, "yy".data, "MM".data, "dd".data]

/-- Token scan of `extractUserDateFormat` from
`core/exporters/sql_exporter.go`: the furthest end position over the last
occurrences of the date tokens (`none` models the -1 sentinel). -/
def dateLastEnd (userFmt : List Char) : Option Nat :=
  dateTokens.foldl
    (fun acc tok =>
      match lastIndexOfSub userFmt tok with
      | none => acc
      | some idx =>
        let e := idx + tok.length
        match acc with
        | none => some e
        | some l => if e > l then some e else some l)
    none

/-- Prefix selection of `extractUserDateFormat`: with no date token the
pattern is returned unchanged, otherwise the prefix up to the furthest
date-token end is taken and whitespace-trimmed. -/
def extractUserDateFormat (userFmt : List Char) : List Char :=
  match dateLastEnd userFmt with
  | none => userFmt
  | some l => trimSpace (userFmt.take l)

/-! ## The OID-dispatched formatters (`core/exporters/sql_exporter.go`) -/

/-- The PostgreSQL wire type identifiers dispatched on by the OID-based
formatters. -/
inductive PgOID where
  | dateOID | timestampOID | timestamptzOID | uuidOID | byteaOID
  | numericOID | intervalOID | jsonbOID | jsonOID | boolOID | otherOID
deriving DecidableEq

/-- Model of `formatValueByOID`: nil stays nil; date columns format with the
layout converted from the extracted date portion of the user pattern;
timestamps with the full converted pattern; zoned timestamps in the resolved
zone; invalid numerics and intervals become nil; JSON and unrecognised
identifiers pass the value through unchanged (as do values whose runtime
type does not match the dispatched case). -/
def formatValueByOID (resolve : List Char → Option GoLoc) (v : PgValue)
    (oid : PgOID) (userTimefmt timeZone : List Char) : PgValue :=
  match v with
  | .null => .null
  | _ =>
    match oid with
    | .dateOID =>
      match v with
      | .timeV t =>
        .textV (t.fmtAt none (ConvertUserTimeFormat (extractUserDateFormat userTimefmt)))
      | _ => v
    | .timestampOID =>
      match v with
      | .timeV t => .textV (t.fmtAt none (ConvertUserTimeFormat userTimefmt))
      | _ => v
    | .timestamptzOID =>
      match v with
      | .timeV t =>
        let r := UserTimeZoneFormat resolve userTimefmt timeZone
        .textV (t.fmtAt (some r.loc) r.layout)
      | _ => v
    | .uuidOID =>
      match v with
      | .uuidV hex => .textV hex
      | _ => v
    | .byteaOID =>
      match v with
      | .bytesV s => .textV s
      | _ => v
    | .numericOID =>
      match v with
      | .numericV valid conv =>
        if !valid then .null
        else
          match conv with
          | .error _ => .null
          | .ok r => .floatV r
      | _ => v
    | .intervalOID =>
      match v with
      | .intervalV valid conv =>
        if !valid then .null
        else
          match conv with
          | .error _ => .null
          | .ok s => .textV s
      | _ => v
    | _ => v

/-- Rendering of `fmt.Sprintf` with the `%v` verb on the model values, used
by the generic fallthrough of the OID-dispatched SQL formatter. -/
def goSprintV : PgValue → List Char
  | .null => "<nil>".data
  | .boolV b => if b then "true".data else "false".data
  | .intV n => (toString n).data
  | .floatV r => r
  | .textV s => s
  | .bytesV s => s
  | .uuidV hex => hex
  | .timeV _ => []
  | .numericV _ _ => []
  | .intervalV _ _ => []
  | .arrV elems => obrace :: joinSep [spChar] elems ++ [cbrace]
  | .jsonV compact => compact

/-- Generic fallthrough of `formatSQLValue` (the switch after the OID
switch): integers render as bare decimals, floats as their `%.15g` form,
arrays as quoted brace lists (the empty array as a bare quoted pair), and
everything else as a quote-escaped string literal. -/
def genericSQLValue (v : PgValue) : List Char :=
  match v with
  | .intV n => (toString n).data
  | .floatV r => r
  | .arrV elems =>
    if elems = [] then [squote, obrace, cbrace, squote]
    else squote :: obrace :: joinSep [','] elems ++ [cbrace, squote]
  | _ => squote :: doubleQuotes (goSprintV v) ++ [squote]

/-- Model of `formatSQLValue(val, valueType)` from
`core/exporters/sql_exporter.go` (the OID-dispatched statement formatter):
nil renders as the NULL keyword; each recognised OID renders its annotated
literal when the runtime type matches, otherwise control falls through to
the generic formatting. -/
def formatSQLValueByOID (v : PgValue) (oid : PgOID) : List Char :=
  match v with
  | .null => "NULL".data
  | _ =>
    match oid with
    | .dateOID =>
      match v with
      | .timeV t => squote :: t.fmtAt none "2006-01-02".data ++ [squote] ++ "::date".data
      | _ => genericSQLValue v
    | .timestampOID =>
      match v with
      | .timeV t =>
        squote :: t.fmtAt none "2006-01-02 15:04:05".data ++ [squote] ++ "::timestamp".data
      | _ => genericSQLValue v
    | .timestamptzOID =>
      match v with
      | .timeV t =>
        squote :: t.fmtAt none "2006-01-02 15:04:05".data ++ [squote] ++ "::timestamptz".data
      | _ => genericSQLValue v
    | .uuidOID =>
      match v with
      | .uuidV hex => squote :: hex ++ [squote] ++ "::uuid".data
      | _ => genericSQLValue v
    | .byteaOID =>
      match v with
      | .bytesV s => squote :: doubleQuotes s ++ [squote] ++ "::bytea".data
      | _ => genericSQLValue v
    | .boolOID =>
      match v with
      | .boolV b => if b then "true".data else "false".data
      | _ => genericSQLValue v
    | .numericOID =>
      match v with
      | .numericV valid conv =>
        if !valid then "NULL".data
        else
          match conv with
          | .error _ => "NULL".data
          | .ok r => r
      | _ => genericSQLValue v
    | .intervalOID =>
      match v with
      | .intervalV valid conv =>
        if !valid then "NULL".data
        else
          match conv with
          | .error _ => "NULL".data
          | .ok s => squote :: s ++ [squote] ++ "::interval".data
      | _ => genericSQLValue v
    | .jsonbOID =>
      match v with
      | .jsonV compact => squote :: compact ++ [squote] ++ "::jsonb".data
      | _ => genericSQLValue v
    | .jsonOID =>
      match v with
      | .jsonV compact => squote :: compact ++ [squote] ++ "::json".data
      | _ => genericSQLValue v
    | .otherOID => genericSQLValue v

/-! ## Fallible-sink run models for the CSV and SQL writers

The sink is modelled by a write budget: the first `budget` calls to the
underlying `Write` succeed and every later call fails, which models a sink
that starts failing (disk full, closed pipe) partway through a run.  The
cursor's terminal state (`rows.Err()`) is the flag `termErr`.  A run result
is the pair returned by the Go writer: the row count and the (wrapped) error
message, `none` on success. -/

/-- Row loop of `dataExporter.writeCSV`: the row counter is incremented
before the write; a failed row write returns count 0 with the wrapped
row-write error; after the loop a terminal cursor error returns the partial
count. -/
def writeCSVRows (budget : Nat) : Nat → Nat → List (List (List Char)) → Bool →
    Nat × Option (List Char)
  | _, rowCount, [], termErr =>
    if termErr then (rowCount, some "error iterating rows".data)
    else (rowCount, none)
  | used, rowCount, _ :: rest, termErr =>
    if used < budget then writeCSVRows budget (used + 1) (rowCount + 1) rest termErr
    else (0, some ("error writing row ".data ++ (toString (rowCount + 1)).data))

/-- Model of `dataExporter.writeCSV` return values: the header (unless
suppressed) consumes the first write; a failed header write returns count 0;
then the row loop runs. -/
def writeCSVRun (budget : Nat) (noHeader : Bool) (rows : List (List (List Char)))
    (termErr : Bool) : Nat × Option (List Char) :=
  if noHeader then writeCSVRows budget 0 0 rows termErr
  else if 0 < budget then writeCSVRows budget 1 0 rows termErr
  else (0, some "error writing headers".data)

/-- Row-and-batch loop of `sqlExporter.Export` with a fallible sink: one
write per emitted batch statement; a failed statement write returns count 0
with the wrapped batch error; after the loop the final partial batch is
flushed the same way, then a terminal cursor error returns the partial
count. -/
def sqlExportRows (budget B : Nat) : List (List (List Char)) →
    List (List (List Char)) → Nat → Nat → Bool → Nat × Option (List Char)
  | [], buf, rowCount, stmts, termErr =>
    if buf.length = 0 then
      if termErr then (rowCount, some "error iterating rows".data)
      else (rowCount, none)
    else if stmts < budget then
      if termErr then (rowCount, some "error iterating rows".data)
      else (rowCount, none)
    else (0, some "error writing final batch statement".data)
  | r :: rs, buf, rowCount, stmts, termErr =>
    if (buf ++ [r]).length = B then
      if stmts < budget then
        sqlExportRows budget B rs [] (rowCount + 1) (stmts + 1) termErr
      else
        (0, some ("error writing batch statement ".data ++ (toString (stmts + 1)).data))
    else sqlExportRows budget B rs (buf ++ [r]) (rowCount + 1) stmts termErr

/-- Model of `sqlExporter.Export` return values over a fallible sink. -/
def sqlExportRun (budget B : Nat) (rows : List (List (List Char)))
    (termErr : Bool) : Nat × Option (List Char) :=
  sqlExportRows budget B rows [] 0 0 termErr

/-! ## Proof support for the escaping claims -/

theorem doubleQuotes_ne_nil (c : Char) (s : List Char) :
    doubleQuotes (c :: s) ≠ [] := by
  by_cases h : c = squote <;> simp [doubleQuotes, h]

theorem undoubleQuotes_doubleQuotes : ∀ s : List Char,
    undoubleQuotes (doubleQuotes s) = s
  | [] => rfl
  | c :: rest => by
    have ih := undoubleQuotes_doubleQuotes rest
    by_cases h : c = squote
    · subst h
      simp [doubleQuotes, undoubleQuotes, ih]
    · cases hrest : doubleQuotes rest with
      | nil =>
        cases rest with
        | nil => simp [doubleQuotes, undoubleQuotes, h]
        | cons d r => exact absurd hrest (doubleQuotes_ne_nil d r)
      | cons d dr =>
        rw [hrest] at ih
        simp [doubleQuotes, undoubleQuotes, h, hrest, ih]

/-- The string O-apostrophe-Brien, built without apostrophe literals. -/
def obrien : List Char := 'O' :: squote :: "Brien".data

/-- Expected SQL literal for `obrien`: quote, O, two quotes, Brien, quote. -/
def obrienLiteral : List Char :=
  squote :: 'O' :: squote :: squote :: "Brien".data ++ [squote]

/-- C2: the SQL statement literal for a text value wraps the string in single
quotes with every embedded single quote doubled, the doubling is reversible,
and the value O'Brien renders as 'O''Brien'. -/
theorem C2_sql_text_escaping :
    (∀ s : List Char,
        FormatSQLValue (.textV s) = squote :: doubleQuotes s ++ [squote] ∧
        undoubleQuotes (doubleQuotes s) = s) ∧
    FormatSQLValue (.textV obrien) = obrienLiteral := by
  refine ⟨fun s => ⟨rfl, undoubleQuotes_doubleQuotes s⟩, ?_⟩
  decide

/-! ## Batching lemmas -/

theorem sqlBatchLoop_flatten (B : Nat) : ∀ (rs : List α) (buf : List α),
    (sqlBatchLoop B rs buf).flatten = buf ++ rs
  | [], buf => by
    by_cases h : buf.length = 0
    · have hb : buf = [] := List.length_eq_zero.mp h
      subst hb
      simp [sqlBatchLoop]
    · simp [sqlBatchLoop, h]
  | r :: rs, buf => by
    have ih1 := sqlBatchLoop_flatten B rs ([] : List α)
    have ih2 := sqlBatchLoop_flatten B rs (buf ++ [r])
    simp only [sqlBatchLoop]
    split
    · simp [ih1]
    · simp [ih2]

theorem sqlBatchLoop_eq_nil (B : Nat) (rs buf : List α)
    (h : sqlBatchLoop B rs buf = []) : buf = [] ∧ rs = [] := by
  have hj := sqlBatchLoop_flatten B rs buf
  rw [h] at hj
  simp only [List.flatten_nil] at hj
  exact List.append_eq_nil.mp hj.symm

theorem sqlBatchLoop_length (B : Nat) (hB : 0 < B) :
    ∀ (rs : List α) (buf : List α), buf.length < B →
      (sqlBatchLoop B rs buf).length = (buf.length + rs.length + B - 1) / B
  | [], buf => by
    intro hlt
    simp only [sqlBatchLoop, List.length_nil, Nat.add_zero]
    by_cases h : buf.length = 0
    · rw [if_pos h, h, List.length_nil, Nat.zero_add]
      exact (Nat.div_eq_of_lt (by omega)).symm
    · rw [if_neg h, List.length_singleton]
      have hpos : 0 < buf.length := Nat.pos_of_ne_zero h
      rw [show buf.length + B - 1 = (buf.length - 1) + B by omega,
        Nat.add_div_right _ hB, Nat.div_eq_of_lt (by omega)]
  | r :: rs, buf => by
    intro hlt
    simp only [sqlBatchLoop, List.length_cons]
    split
    · rename_i hfull
      have hlen : buf.length + 1 = B := by simpa using hfull
      have ih := sqlBatchLoop_length B hB rs ([] : List α) (by simpa using hB)
      simp only [List.length_nil, Nat.zero_add] at ih
      rw [List.length_cons, ih,
        show buf.length + (rs.length + 1) + B - 1 = (rs.length + B - 1) + B by omega,
        Nat.add_div_right _ hB]
    · rename_i hfull
      have hlt2 : (buf ++ [r]).length < B := by
        simp only [List.length_append, List.length_singleton] at hfull ⊢
        omega
      have ih := sqlBatchLoop_length B hB rs (buf ++ [r]) hlt2
      rw [ih, show (buf ++ [r]).length + rs.length + B - 1
            = buf.length + (rs.length + 1) + B - 1 by
          simp only [List.length_append, List.length_singleton]; omega]

theorem sqlBatchLoop_dropLast (B : Nat) :
    ∀ (rs : List α) (buf : List α),
      ∀ c ∈ (sqlBatchLoop B rs buf).dropLast, c.length = B
  | [], buf => by
    intro c hc
    by_cases h : buf.length = 0 <;> simp [sqlBatchLoop, h] at hc
  | r :: rs, buf => by
    intro c hc
    simp only [sqlBatchLoop] at hc
    split at hc
    · rename_i hfull
      cases hL : sqlBatchLoop B rs ([] : List α) with
      | nil => rw [hL] at hc; simp at hc
      | cons d ds =>
        rw [hL, List.dropLast_cons₂] at hc
        rcases List.mem_cons.mp hc with hceq | hcmem
        · rw [hceq]; exact hfull
        · have ih := sqlBatchLoop_dropLast B rs ([] : List α)
          rw [hL] at ih
          exact ih c hcmem
    · exact sqlBatchLoop_dropLast B rs (buf ++ [r]) c hc

theorem sqlBatchLoop_getLast (B : Nat) (hB : 0 < B) :
    ∀ (rs : List α) (buf : List α), buf.length < B →
      ∀ c, (sqlBatchLoop B rs buf).getLast? = some c →
        c.length = if (buf.length + rs.length) % B = 0 then B
                   else (buf.length + rs.length) % B
  | [], buf => by
    intro hlt c hc
    simp only [sqlBatchLoop] at hc
    simp only [List.length_nil, Nat.add_zero]
    by_cases h : buf.length = 0
    · rw [if_pos h] at hc
      simp at hc
    · rw [if_neg h] at hc
      simp only [List.getLast?_singleton, Option.some_inj] at hc
      subst hc
      rw [Nat.mod_eq_of_lt hlt, if_neg h]
  | r :: rs, buf => by
    intro hlt c hc
    simp only [sqlBatchLoop] at hc
    split at hc
    · rename_i hfull
      have hlen : buf.length + 1 = B := by simpa using hfull
      cases hL : sqlBatchLoop B rs ([] : List α) with
      | nil =>
        have hrs := (sqlBatchLoop_eq_nil B rs ([] : List α) hL).2
        subst hrs
        rw [hL] at hc
        simp only [List.getLast?_singleton, Option.some_inj] at hc
        subst hc
        simp only [List.length_cons, List.length_nil]
        rw [show buf.length + (0 + 1) = B by omega, Nat.mod_self, if_pos rfl]
        exact hfull
      | cons d ds =>
        rw [hL, List.getLast?_cons_cons] at hc
        have ih := sqlBatchLoop_getLast B hB rs ([] : List α) (by simpa using hB)
        rw [hL] at ih
        have hres := ih c hc
        simp only [List.length_nil, Nat.zero_add] at hres
        rw [List.length_cons,
          show buf.length + (rs.length + 1) = rs.length + B by omega,
          Nat.add_mod_right]
        exact hres
    · rename_i hfull
      have hlt2 : (buf ++ [r]).length < B := by
        simp only [List.length_append, List.length_singleton] at hfull ⊢
        omega
      have hres := sqlBatchLoop_getLast B hB rs (buf ++ [r]) hlt2 c hc
      rw [List.length_cons,
        show buf.length + (rs.length + 1) = (buf ++ [r]).length + rs.length by
          simp only [List.length_append, List.length_singleton]; omega]
      exact hres

/-- C1: for a cursor delivering `R` formatted rows and rows-per-statement
`B ≥ 1`, the SQL exporter emits exactly `⌈R/B⌉ = (R+B-1)/B` INSERT
statements; every batch except possibly the last holds exactly `B` row
tuples; the last batch holds `R mod B` tuples (or `B` when `B` divides `R`);
and concatenating all batches in emission order reconstructs the formatted
rows in delivery order. -/
theorem C1_sql_statement_batching (B : Nat) (hB : 1 ≤ B) (table : List Char)
    (columns : List (List Char)) (rows : List (List (List Char))) :
    (sqlExportStatements table columns B rows).length = (rows.length + B - 1) / B ∧
    (sqlExportBatches B rows).length = (rows.length + B - 1) / B ∧
    (∀ c ∈ (sqlExportBatches B rows).dropLast, c.length = B) ∧
    (∀ c, (sqlExportBatches B rows).getLast? = some c →
        c.length = if rows.length % B = 0 then B else rows.length % B) ∧
    (sqlExportBatches B rows).flatten = rows := by
  have hB0 : 0 < B := hB
  have hempty : ([] : List (List (List Char))).length < B := by simpa using hB0
  have hlen := sqlBatchLoop_length B hB0 rows ([] : List (List (List Char))) hempty
  rw [List.length_nil, Nat.zero_add] at hlen
  refine ⟨?_, hlen, ?_, ?_, ?_⟩
  · rw [sqlExportStatements, List.length_map]
    exact hlen
  · exact sqlBatchLoop_dropLast B rows _
  · intro c hc
    have := sqlBatchLoop_getLast B hB0 rows _ hempty c hc
    rwa [List.length_nil, Nat.zero_add] at this
  · exact sqlBatchLoop_flatten B rows _

/-- Witness for C1 at the spec's own example: `R = 7`, `B = 3` gives three
statements with batch sizes 3, 3, 1, concatenating back to the rows. -/
theorem C1_sql_statement_batching_witness :
    1 ≤ 3 ∧
    ((sqlExportStatements "t".data [ "c".data ] 3
        [[ "1".data ], [ "2".data ], [ "3".data ], [ "4".data ],
         [ "5".data ], [ "6".data ], [ "7".data ]]).length = (7 + 3 - 1) / 3 ∧
     (sqlExportBatches 3
        [[ "1".data ], [ "2".data ], [ "3".data ], [ "4".data ],
         [ "5".data ], [ "6".data ], [ "7".data ]]).length = (7 + 3 - 1) / 3 ∧
     (∀ c ∈ (sqlExportBatches 3
        [[ "1".data ], [ "2".data ], [ "3".data ], [ "4".data ],
         [ "5".data ], [ "6".data ], [ "7".data ]]).dropLast, c.length = 3) ∧
     (∀ c, (sqlExportBatches 3
        [[ "1".data ], [ "2".data ], [ "3".data ], [ "4".data ],
         [ "5".data ], [ "6".data ], [ "7".data ]]).getLast? = some c →
        c.length = if 7 % 3 = 0 then 3 else 7 % 3) ∧
     (sqlExportBatches 3
        [[ "1".data ], [ "2".data ], [ "3".data ], [ "4".data ],
         [ "5".data ], [ "6".data ], [ "7".data ]]).flatten
       = [[ "1".data ], [ "2".data ], [ "3".data ], [ "4".data ],
          [ "5".data ], [ "6".data ], [ "7".data ]]) := by
  refine ⟨by decide, ?_⟩
  have h := C1_sql_statement_batching 3 (by decide) "t".data [ "c".data ]
    [[ "1".data ], [ "2".data ], [ "3".data ], [ "4".data ],
     [ "5".data ], [ "6".data ], [ "7".data ]]
  simpa using h

/-! ## C3: null rendering -/

/-- C3: a nil input value renders as each format's null token: the empty
field in CSV, the native `null` token in JSON, an empty element (open plus
close tag, no content) in XML, and the unquoted NULL keyword in SQL — never
as a quoted string form of NULL or null. -/
theorem C3_null_tokens (layout : List Char) (loc : GoLoc) (field : List Char) :
    FormatCSVValue .null layout loc = [] ∧
    FormatJSONValue .null layout loc = .jnull ∧
    marshalJson (FormatJSONValue .null layout loc) = "null".data ∧
    marshalJson (FormatJSONValue .null layout loc) ≠ goQuoteStr "null".data ∧
    FormatXMLValue .null layout loc = [] ∧
    xmlFieldTokens field (FormatXMLValue .null layout loc)
      = [.startTag field, .endTag field] ∧
    renderTokens (xmlFieldTokens field (FormatXMLValue .null layout loc))
      = ('<' :: field ++ ['>']) ++ ('<' :: '/' :: field ++ ['>']) ∧
    FormatSQLValue .null = "NULL".data ∧
    FormatSQLValue .null ≠ squote :: "NULL".data ++ [squote] ∧
    FormatSQLValue .null ≠ squote :: "null".data ++ [squote] ∧
    FormatCSVValue .null layout loc ≠ "NULL".data := by
  refine ⟨rfl, rfl, rfl,
    (show ("null".data : List Char) ≠ goQuoteStr "null".data by decide), rfl, rfl, ?_,
    rfl, by decide, by decide,
    (show ([] : List Char) ≠ "NULL".data by decide)⟩
  simp [renderTokens, renderToken, xmlFieldTokens, FormatXMLValue, FormatCSVValue]

/-! ## C10: invalid interval in the two statement formatters -/

/-- C10: an interval whose Valid flag is false, or whose `Value()` conversion
fails, renders as the empty string under the type-switch statement formatter
`FormatSQLValue` — contributing an empty slot to the VALUES tuple — while
the OID-dispatched statement formatter `formatSQLValue` renders the same
input as the NULL keyword. -/
theorem C10_invalid_interval (conv : Except Unit (List Char)) :
    FormatSQLValue (.intervalV false conv) = [] ∧
    FormatSQLValue (.intervalV true (.error ())) = [] ∧
    formatSQLValueByOID (.intervalV false conv) .intervalOID = "NULL".data ∧
    formatSQLValueByOID (.intervalV true (.error ())) .intervalOID = "NULL".data ∧
    valuesLines [["1".data, FormatSQLValue (.intervalV false conv)]]
      = tabChar :: '(' :: "1, ".data ++ [')', ';', nlChar] := by
  refine ⟨rfl, rfl, rfl, rfl, rfl⟩

/-! ## C4: JSON key order -/

theorem encodeEntries_cons_eq (first : Bool) (k : List Char) (v : JsonVal)
    (rest : List (List Char × JsonVal)) :
    encodeEntries first ((k, v) :: rest)
      = (if first then [] else [',', nlChar]) ++ entryStr (k, v)
        ++ encodeEntries false rest := by
  simp [encodeEntries, entryStr]

theorem encodeEntries_false_spec : ∀ l : List (List Char × JsonVal),
    encodeEntries false l =
      (if l = [] then [] else ',' :: nlChar :: orderedEntriesSpec l)
  | [] => rfl
  | (k, v) :: rest => by
    rw [encodeEntries_cons_eq, encodeEntries_false_spec rest]
    cases rest with
    | nil => simp [orderedEntriesSpec]
    | cons kv2 rest2 => simp [orderedEntriesSpec]

theorem encodeEntries_true_spec : ∀ l : List (List Char × JsonVal),
    encodeEntries true l = orderedEntriesSpec l
  | [] => rfl
  | (k, v) :: rest => by
    rw [encodeEntries_cons_eq, encodeEntries_false_spec rest]
    cases rest with
    | nil => simp [orderedEntriesSpec]
    | cons kv2 rest2 => simp [orderedEntriesSpec]

/-- C4 (counterexample): under the legacy map-based `writeJSON`, the emitted
key order for the column list [name, id] is the library's sorted order
[id, name], not the cursor's column order — refuting the claim that every
emitted entry lists its keys in the cursor's column order for every column
list. -/
theorem C4_sorted_keys_counterexample :
    legacyWriteJSONKeyOrder ["name".data, "id".data] = ["id".data, "name".data] ∧
    legacyWriteJSONKeyOrder ["name".data, "id".data] ≠ ["name".data, "id".data] := by
  decide

/-- C4 (amended): the ordered encoder `OrderedJsonEncoder.EncodeRow` lists
its keys in exactly the cursor's column order — its output equals the
spec-side ordered rendering that walks the column list in order — while the
legacy map-based writer emits keys in sorted order, which agrees with column
order for the already-sorted column list [id, name]. -/
theorem C4_ordered_json_key_order (keys : List (List Char)) (values : List JsonVal)
    (h : keys ≠ []) :
    EncodeRow keys values = orderedRowSpec keys values ∧
    legacyWriteJSONKeyOrder ["id".data, "name".data] = ["id".data, "name".data] := by
  constructor
  · rw [EncodeRow, if_neg h, orderedRowSpec, encodeEntries_true_spec]
  · decide

/-- Witness for C4 at the spec's example columns [id, name]. -/
theorem C4_ordered_json_key_order_witness :
    (["id".data, "name".data] ≠ ([] : List (List Char))) ∧
    (EncodeRow ["id".data, "name".data] [.jnum "1".data, .jstr "a".data]
       = orderedRowSpec ["id".data, "name".data] [.jnum "1".data, .jstr "a".data] ∧
     legacyWriteJSONKeyOrder ["id".data, "name".data] = ["id".data, "name".data]) :=
  ⟨by decide, C4_ordered_json_key_order ["id".data, "name".data]
    [.jnum "1".data, .jstr "a".data] (by decide)⟩

/-! ## C5: determinism of the markup writer -/

/-- C5 (counterexample): the legacy `XMLRow.MarshalXML` ranges over a Go
map, so its output depends on the iteration order: the same field map
delivered in two different orders — both possible runs on identical cursor
content — produces different bytes, refuting byte-identical re-runs. -/
theorem C5_map_iteration_counterexample :
    ([("a".data, "1".data), ("b".data, "2".data)].Perm
      [("b".data, "2".data), ("a".data, "1".data)]) ∧
    XMLRowMarshal [("a".data, "1".data), ("b".data, "2".data)] ≠
      XMLRowMarshal [("b".data, "2".data), ("a".data, "1".data)] := by
  constructor
  · exact List.Perm.swap _ _ _
  · decide

theorem startNames_append (a b : List XmlToken) :
    startNames (a ++ b) = startNames a ++ startNames b := by
  induction a with
  | nil => rfl
  | cons t rest ih => cases t <;> simp [startNames, ih]

theorem startNames_fieldTokens (f v : List Char) :
    startNames (xmlFieldTokens f v) = [f] := by
  rw [xmlFieldTokens]
  split
  · rfl
  · split <;> rfl

theorem startNames_flatten_fields : ∀ l : List (List Char × List Char),
    startNames ((l.map (fun fv => xmlFieldTokens fv.1 fv.2)).flatten)
      = l.map Prod.fst
  | [] => rfl
  | fv :: rest => by
    have ih := startNames_flatten_fields rest
    simp [startNames_append, startNames_fieldTokens, ih]

/-- C5 (amended): the current ordered markup writer (`xmlExporter.Export`)
emits each row's child elements in exactly the cursor's column order — the
start-tag names of a row are the row tag followed by the column list — so
its output is a deterministic function of the cursor content and options;
only the legacy map-ranging `XMLRow.MarshalXML` depends on the randomized
map iteration order. -/
theorem C5_ordered_xml_row_element_order (rowTag : List Char)
    (fields vals : List (List Char)) (h : fields.length = vals.length) :
    startNames (xmlRowTokens rowTag fields vals) = rowTag :: fields := by
  rw [xmlRowTokens]
  show startNames (XmlToken.startTag rowTag ::
    (((List.zip fields vals).map (fun fv => xmlFieldTokens fv.1 fv.2)).flatten
      ++ [XmlToken.endTag rowTag])) = rowTag :: fields
  rw [show ∀ n rest, startNames (XmlToken.startTag n :: rest) = n :: startNames rest
      from fun n rest => rfl]
  rw [startNames_append, startNames_flatten_fields]
  have hfst : (List.zip fields vals).map Prod.fst = fields :=
    List.map_fst_zip fields vals (le_of_eq h)
  simp [startNames, hfst]

/-- Witness for C5 at columns [id, name] with a null second value. -/
theorem C5_ordered_xml_row_element_order_witness :
    (["id".data, "name".data].length = ["1".data, ([] : List Char)].length) ∧
    startNames (xmlRowTokens "row".data ["id".data, "name".data]
        ["1".data, ([] : List Char)])
      = "row".data :: ["id".data, "name".data] :=
  ⟨by decide, C5_ordered_xml_row_element_order "row".data _ _ (by decide)⟩

/-! ## C6: invalid timezone handling -/

/-- C6 (counterexample): under a resolver that cannot resolve the zone name
Mars/Olympus, the CLI validation in `main.go` rejects the run with an error
before any export begins — an invalid timezone aborts the export instead of
completing with a warning and local time. -/
theorem C6_invalid_tz_aborts_cli :
    validateExportParams (fun _ => none) (fun _ => true)
      { sqlQuery := "SELECT 1".data, sqlFile := [], format := "csv".data,
        compression := "none".data, tableName := [], rowPerStatement := 1,
        timeFormat := "yyyy-MM-dd HH:mm:ss".data,
        timeZone := "Mars/Olympus".data }
      = .error "invalid timezone".data := by
  rfl

/-- C6 (amended): for every unresolvable timezone name, `UserTimeZoneFormat`
substitutes local time and records the warning, so the formatter itself
never aborts; but the CLI parameter validation rejects the same name with an
error before the export starts. -/
theorem C6_tz_fallback_but_cli_rejects (resolve : List Char → Option GoLoc)
    (fmt tz : List Char) (hres : resolve tz = none) (htz : tz ≠ []) :
    UserTimeZoneFormat resolve fmt tz
      = ⟨ConvertUserTimeFormat fmt, .localLoc, true⟩ ∧
    validateExportParams resolve (fun _ => true)
      { sqlQuery := "SELECT 1".data, sqlFile := [], format := "csv".data,
        compression := "none".data, tableName := [], rowPerStatement := 1,
        timeFormat := [], timeZone := tz }
      = .error "invalid timezone".data := by
  constructor
  · simp [UserTimeZoneFormat, htz, hres]
  · have hval : (ValidateTimeZone resolve tz).isOk = false := by
      simp only [ValidateTimeZone, htz, hres]
      rfl
    simp only [validateExportParams]
    rw [if_neg (by decide), if_neg (by decide), if_neg (by decide),
      if_neg (by decide), if_neg (by decide), if_neg (by decide),
      if_neg (by decide), if_pos (And.intro htz hval)]

/-- Witness for C6 at the concrete unresolvable zone Mars/Olympus. -/
theorem C6_tz_fallback_witness :
    ((fun _ => (none : Option GoLoc)) "Mars/Olympus".data = none) ∧
    ("Mars/Olympus".data ≠ ([] : List Char)) ∧
    (UserTimeZoneFormat (fun _ => none) "yyyy-MM-dd".data "Mars/Olympus".data
        = ⟨ConvertUserTimeFormat "yyyy-MM-dd".data, .localLoc, true⟩ ∧
     validateExportParams (fun _ => none) (fun _ => true)
        { sqlQuery := "SELECT 1".data, sqlFile := [], format := "csv".data,
          compression := "none".data, tableName := [], rowPerStatement := 1,
          timeFormat := [], timeZone := "Mars/Olympus".data }
        = .error "invalid timezone".data) :=
  ⟨rfl, by decide,
   C6_tz_fallback_but_cli_rejects (fun _ => none) "yyyy-MM-dd".data
     "Mars/Olympus".data rfl (by decide)⟩

/-! ## C7: row count returned on sink failure -/

theorem writeCSVRows_ok (budget : Nat) : ∀ (rows : List (List (List Char)))
    (used count : Nat) (termErr : Bool), used + rows.length ≤ budget →
    writeCSVRows budget used count rows termErr
      = (count + rows.length,
         if termErr then some "error iterating rows".data else none)
  | [], used, count, termErr => by
    intro _
    cases termErr <;> simp [writeCSVRows]
  | r :: rest, used, count, termErr => by
    intro h
    have hlt : used < budget := by
      simp only [List.length_cons] at h
      omega
    have ih := writeCSVRows_ok budget rest (used + 1) (count + 1) termErr
      (by simp only [List.length_cons] at h; omega)
    simp only [writeCSVRows, if_pos hlt, ih, List.length_cons]
    congr 1
    omega

theorem writeCSVRows_fail (budget : Nat) : ∀ (rows : List (List (List Char)))
    (used count : Nat) (termErr : Bool), budget - used < rows.length →
    writeCSVRows budget used count rows termErr
      = (0, some ("error writing row ".data
          ++ (toString (count + (budget - used) + 1)).data))
  | [], used, count, termErr => by
    intro h
    simp at h
  | r :: rest, used, count, termErr => by
    intro h
    by_cases hlt : used < budget
    · have ih := writeCSVRows_fail budget rest (used + 1) (count + 1) termErr
        (by simp only [List.length_cons] at h; omega)
      simp only [writeCSVRows, if_pos hlt, ih]
      rw [show count + 1 + (budget - (used + 1)) + 1
          = count + (budget - used) + 1 by omega]
    · simp only [writeCSVRows, if_neg hlt]
      rw [show count + (budget - used) + 1 = count + 1 by omega]

theorem sqlExportRows_ok (budget B : Nat) :
    ∀ (rs : List (List (List Char))) (buf : List (List (List Char)))
      (rowCount stmts : Nat) (termErr : Bool),
      stmts + (sqlBatchLoop B rs buf).length ≤ budget →
      sqlExportRows budget B rs buf rowCount stmts termErr
        = (rowCount + rs.length,
           if termErr then some "error iterating rows".data else none)
  | [], buf, rowCount, stmts, termErr => by
    intro h
    simp only [sqlBatchLoop] at h
    by_cases hb : buf.length = 0
    · cases termErr <;> simp [sqlExportRows, hb]
    · rw [if_neg hb] at h
      simp only [List.length_singleton] at h
      have hlt : stmts < budget := by omega
      cases termErr <;> simp [sqlExportRows, hb, hlt]
  | r :: rs, buf, rowCount, stmts, termErr => by
    intro h
    simp only [sqlBatchLoop] at h
    by_cases hfull : (buf ++ [r]).length = B
    · rw [if_pos hfull] at h
      simp only [List.length_cons] at h
      have hlt : stmts < budget := by omega
      have ih := sqlExportRows_ok budget B rs [] (rowCount + 1) (stmts + 1) termErr
        (by omega)
      simp only [sqlExportRows, if_pos hfull, if_pos hlt, ih, List.length_cons]
      congr 1
      omega
    · rw [if_neg hfull] at h
      have ih := sqlExportRows_ok budget B rs (buf ++ [r]) (rowCount + 1) stmts termErr h
      simp only [sqlExportRows, if_neg hfull, ih, List.length_cons]
      congr 1
      omega

theorem sqlExportRows_fail (budget B : Nat) :
    ∀ (rs : List (List (List Char))) (buf : List (List (List Char)))
      (rowCount stmts : Nat) (termErr : Bool), stmts ≤ budget →
      budget < stmts + (sqlBatchLoop B rs buf).length →
      ∃ e, sqlExportRows budget B rs buf rowCount stmts termErr = (0, some e)
  | [], buf, rowCount, stmts, termErr => by
    intro hs h
    simp only [sqlBatchLoop] at h
    by_cases hb : buf.length = 0
    · rw [if_pos hb] at h
      simp at h
      omega
    · rw [if_neg hb] at h
      simp only [List.length_singleton] at h
      have hlt : ¬ stmts < budget := by omega
      refine ⟨"error writing final batch statement".data, ?_⟩
      simp [sqlExportRows, hb, hlt]
  | r :: rs, buf, rowCount, stmts, termErr => by
    intro hs h
    simp only [sqlBatchLoop] at h
    by_cases hfull : (buf ++ [r]).length = B
    · rw [if_pos hfull] at h
      simp only [List.length_cons] at h
      by_cases hlt : stmts < budget
      · have ih := sqlExportRows_fail budget B rs [] (rowCount + 1) (stmts + 1)
          termErr (by omega) (by omega)
        obtain ⟨e, he⟩ := ih
        refine ⟨e, ?_⟩
        simp only [sqlExportRows, if_pos hfull, if_pos hlt, he]
      · refine ⟨"error writing batch statement ".data ++ (toString (stmts + 1)).data, ?_⟩
        simp only [sqlExportRows, if_pos hfull, if_neg hlt]
    · rw [if_neg hfull] at h
      have ih := sqlExportRows_fail budget B rs (buf ++ [r]) (rowCount + 1) stmts
        termErr hs h
      obtain ⟨e, he⟩ := ih
      refine ⟨e, ?_⟩
      simp only [sqlExportRows, if_neg hfull, he]

/-- C7 (counterexample): a sink whose writes start failing at the third call
fails the CSV writer while writing the second row, after the header and one
data row were already written; the writer returns row count 0 with the
wrapped error, not the count 1 of rows successfully written before the
failure. -/
theorem C7_write_failure_returns_zero_counterexample :
    writeCSVRun 2 false [["1".data], ["2".data]] false
      = (0, some ("error writing row ".data ++ "2".data)) ∧
    (writeCSVRun 2 false [["1".data], ["2".data]] false).1 ≠ 1 := by
  decide

/-- C7 (amended): when a sink write fails mid-run, the CSV and SQL writers
abort with a wrapped error but return row count 0; the count of rows
written before the failure is returned only for cursor-side errors
(`rows.Err()` after the loop). -/
theorem C7_sink_failure_behaviour (budget B : Nat)
    (rows : List (List (List Char))) (termErr : Bool) :
    (budget < rows.length →
      writeCSVRun budget true rows termErr
        = (0, some ("error writing row ".data ++ (toString (budget + 1)).data))) ∧
    (rows.length ≤ budget →
      writeCSVRun budget true rows termErr
        = (rows.length,
           if termErr then some "error iterating rows".data else none)) ∧
    (budget < (sqlExportBatches B rows).length →
      ∃ e, sqlExportRun budget B rows termErr = (0, some e)) ∧
    ((sqlExportBatches B rows).length ≤ budget →
      sqlExportRun budget B rows termErr
        = (rows.length,
           if termErr then some "error iterating rows".data else none)) := by
  refine ⟨?_, ?_, ?_, ?_⟩
  · intro h
    rw [writeCSVRun, if_pos rfl,
      writeCSVRows_fail budget rows 0 0 termErr (by omega),
      show 0 + (budget - 0) + 1 = budget + 1 by omega]
  · intro h
    rw [writeCSVRun, if_pos rfl,
      writeCSVRows_ok budget rows 0 0 termErr (by omega), Nat.zero_add]
  · intro h
    exact sqlExportRows_fail budget B rows [] 0 0 termErr (by omega)
      (by rw [Nat.zero_add]; exact h)
  · intro h
    rw [sqlExportRun,
      sqlExportRows_ok budget B rows [] 0 0 termErr (by rw [Nat.zero_add]; exact h),
      Nat.zero_add]

/-- Witness for C7: a failing run (budget 1, two rows) and a successful run
with a terminal cursor error (budget 2, two rows). -/
theorem C7_sink_failure_behaviour_witness :
    ((1 : Nat) < 2 ∧
      writeCSVRun 1 true [["1".data], ["2".data]] false
        = (0, some ("error writing row ".data ++ (toString (1 + 1)).data))) ∧
    ((2 : Nat) ≤ 2 ∧
      writeCSVRun 2 true [["1".data], ["2".data]] true
        = (2, if true then some "error iterating rows".data else none)) ∧
    ((sqlExportBatches 1 [["1".data], ["2".data]]).length ≤ 2 ∧
      sqlExportRun 2 1 [["1".data], ["2".data]] false
        = (2, if false then some "error iterating rows".data else none)) :=
  ⟨⟨by decide, ((C7_sink_failure_behaviour 1 1 [["1".data], ["2".data]] false).1)
      (by decide)⟩,
   ⟨by decide, by
      have h := ((C7_sink_failure_behaviour 2 1 [["1".data], ["2".data]] true).2.1)
        (by decide)
      simpa using h⟩,
   ⟨by decide, by
      have h := ((C7_sink_failure_behaviour 2 1 [["1".data], ["2".data]] false).2.2.2)
        (by decide)
      simpa using h⟩⟩

/-! ## C8: delimiter validation -/

/-- C8: `parseDelimiter` maps the two-character escape token backslash-t to
the tab rune, errors on the empty string (and on anything trimming to
empty), errors on every input resolving to more than one character, accepts
every single-character delimiter, and every accepted input is either that
single character or the escape token resolving to tab. -/
theorem C8_parseDelimiter_rules :
    parseDelimiter [bslash, 't'] = .ok tabChar ∧
    parseDelimiter [] = .error "delimiter cannot be empty".data ∧
    (∀ d, trimSpace d = [] →
        parseDelimiter d = .error "delimiter cannot be empty".data) ∧
    (∀ d, 1 < (trimSpace d).length → trimSpace d ≠ [bslash, 't'] →
        parseDelimiter d = .error "delimiter must be a single character".data) ∧
    (∀ d c, trimSpace d = [c] → parseDelimiter d = .ok c) ∧
    (∀ d c, parseDelimiter d = .ok c →
        trimSpace d = [c] ∨ (trimSpace d = [bslash, 't'] ∧ c = tabChar)) := by
  refine ⟨rfl, rfl, ?_, ?_, ?_, ?_⟩
  · intro d h
    simp only [parseDelimiter, h]
    rfl
  · intro d h1 h2
    simp only [parseDelimiter]
    generalize hts : trimSpace d = t
    rw [hts] at h1 h2
    rcases t with - | ⟨c, rest⟩
    · simp at h1
    · rw [if_neg (by simp), if_neg h2]
      rcases rest with - | ⟨c2, rest2⟩
      · simp at h1
      · rfl
  · intro d c h
    simp only [parseDelimiter, h]
    rw [if_neg (by simp), if_neg (by simp)]
  · intro d c h
    simp only [parseDelimiter] at h
    generalize hts : trimSpace d = t at h ⊢
    rcases t with - | ⟨c1, rest⟩
    · rw [if_pos rfl] at h
      exact absurd h (by simp)
    · rw [if_neg (by simp)] at h
      by_cases h2 : (c1 :: rest) = [bslash, 't']
      · rw [if_pos h2] at h
        refine Or.inr ⟨h2, ?_⟩
        injection h with h
        exact h.symm
      · rw [if_neg h2] at h
        rcases rest with - | ⟨c2, rest2⟩
        · simp at h
          exact Or.inl (by rw [h])
        · simp at h

/-- Witness for C8: the semicolon is accepted as itself and a two-character
delimiter is rejected. -/
theorem C8_parseDelimiter_rules_witness :
    (trimSpace [';'] = [';'] ∧ parseDelimiter [';'] = .ok ';') ∧
    (1 < (trimSpace "ab".data).length ∧ trimSpace "ab".data ≠ [bslash, 't'] ∧
      parseDelimiter "ab".data
        = .error "delimiter must be a single character".data) :=
  ⟨⟨by decide, C8_parseDelimiter_rules.2.2.2.2.1 [';'] ';' (by decide)⟩,
   ⟨by decide, by decide,
     C8_parseDelimiter_rules.2.2.2.1 "ab".data (by decide) (by decide)⟩⟩

/-! ## C9: date-portion extraction -/

/-- C9 (counterexample): for the pattern HH:mm yyyy the extraction returns
the whole pattern — the prefix up to the last date-token occurrence — which
still contains the time tokens HH and mm; a longest prefix covering only
date tokens could not contain them.  The claim's universal description is
therefore false on this pattern. -/
theorem C9_counterexample :
    extractUserDateFormat "HH:mm yyyy".data = "HH:mm yyyy".data ∧
    containsSub (extractUserDateFormat "HH:mm yyyy".data) "HH".data = true ∧
    containsSub (extractUserDateFormat "HH:mm yyyy".data) "mm".data = true := by
  decide

/-- C9 (amended): the extraction returns the whitespace-trimmed prefix of
the pattern ending at the last date-token occurrence (the whole pattern when
no date token occurs), which may include earlier time tokens; for patterns
whose date portion comes first, such as yyyy-MM-dd HH:mm:ss, this is the
date-only prefix, and the OID formatter renders date columns with exactly
that extracted layout. -/
theorem C9_date_extraction (t : GoTime) (tz : List Char)
    (resolve : List Char → Option GoLoc) :
    extractUserDateFormat "yyyy-MM-dd HH:mm:ss".data = "yyyy-MM-dd".data ∧
    ConvertUserTimeFormat "yyyy-MM-dd".data = "2006-01-02".data ∧
    formatValueByOID resolve (.timeV t) .dateOID "yyyy-MM-dd HH:mm:ss".data tz
      = .textV (t.fmtAt none "2006-01-02".data) ∧
    (∀ fmt, extractUserDateFormat fmt = fmt ∨
        ∃ n, extractUserDateFormat fmt = trimSpace (fmt.take n)) := by
  refine ⟨by decide, by decide, ?_, ?_⟩
  · show PgValue.textV (t.fmtAt none (ConvertUserTimeFormat
      (extractUserDateFormat "yyyy-MM-dd HH:mm:ss".data)))
      = .textV (t.fmtAt none "2006-01-02".data)
    rw [show ConvertUserTimeFormat (extractUserDateFormat "yyyy-MM-dd HH:mm:ss".data)
        = "2006-01-02".data by decide]
  · intro fmt
    cases h : dateLastEnd fmt with
    | none => exact Or.inl (by simp [extractUserDateFormat, h])
    | some l => exact Or.inr ⟨l, by simp [extractUserDateFormat, h]⟩

end Pgexport
